import Mathlib

/-!
Shallow embedding of the timetable merge/resolve engine of the unisync
backend (`src/solver/index.ts`).

Conventions of the embedding:
* optional string fields of a row are embedded as plain strings, with `""`
  standing for an absent field (the source only ever tests truthiness of
  these fields, defaults them with `|| ""`, or defaults `sourceFile` with
  `|| "unknown"`, so `undefined` and `""` are observationally identical);
* a JavaScript `Map` is embedded as an association list with the `Map`
  insertion/update discipline (update in place, insert at the end);
* a JavaScript `Set` is embedded as a duplicate-free list in insertion
  order (`setAdd` below);
* JavaScript `for` loops with early `return` become `List.find?` over the
  list of loop indices in loop order.
-/

/-- Characters matched by the JavaScript regexp class `\s` (the same set is
removed by `String.prototype.trim`). -/
def isJsSpace (c : Char) : Bool :=
  c = ' ' || c = '\t' || c = '\n' || c = '\r' || c.toNat = 0x0b || c.toNat = 0x0c ||
  c.toNat = 0xa0 || c.toNat = 0x1680 || (0x2000 ≤ c.toNat && c.toNat ≤ 0x200a) ||
  c.toNat = 0x2028 || c.toNat = 0x2029 || c.toNat = 0x202f || c.toNat = 0x205f ||
  c.toNat = 0x3000 || c.toNat = 0xfeff

/-- JavaScript `String.prototype.trim`. -/
def jsTrim (s : String) : String :=
  String.mk (((s.data.dropWhile isJsSpace).reverse.dropWhile isJsSpace).reverse)

/-- JavaScript `String.prototype.toLowerCase` (character-wise; all strings
the engine compares after lower-casing are ASCII, where this agrees with
JavaScript). -/
def jsToLower (s : String) : String :=
  String.mk (s.data.map Char.toLower)

/-- JavaScript `String.prototype.split` with a one-character separator. -/
def splitOnChar (sep : Char) : List Char → List (List Char)
  | [] => [[]]
  | c :: cs =>
    match splitOnChar sep cs with
    | [] => [[]]
    | g :: gs => if c = sep then [] :: g :: gs else (c :: g) :: gs

/-- Input record produced by the parsing layer (`TimetableRow` in
`src/parsers/index.ts`); absent optional fields are embedded as `""`. -/
structure TimetableRow where
  day : String
  period : String
  subject : String := ""
  teacher : String := ""
  group : String := ""
  room : String := ""
  sourceFile : String := ""
deriving DecidableEq, Repr

/-- Embeds `Assignment = TimetableRow & (assignedSlot: string)` (solver line 4). -/
structure Assignment extends TimetableRow where
  assignedSlot : String
deriving DecidableEq, Repr

/-- The three conflict kinds `'teacher' | 'room' | 'group'` (solver line 7). -/
inductive ConflictType where
  | teacher
  | room
  | group
deriving DecidableEq, Repr

/-- Embeds the `Conflict` record (solver lines 6-11). -/
structure Conflict where
  type : ConflictType
  slot : String
  conflictingEntries : List Assignment
  resource : String
deriving DecidableEq, Repr

/-- Embeds `DAYS` (solver line 19). -/
def DAYS : List String := ["Mon", "Tue", "Wed", "Thu", "Fri"]

/-- Embeds `PERIODS` (solver line 20). -/
def PERIODS : List String := ["P1", "P2", "P3", "P4", "P5", "P6"]

/-- The 30 canonical slot keys, in day-major order. -/
def canonicalSlots : List String :=
  (DAYS.map (fun d => PERIODS.map (fun p => d ++ "-" ++ p))).flatten

/-- Membership of a string in the canonical 30-slot grid. -/
def isCanonicalSlot (s : String) : Bool :=
  canonicalSlots.contains s

/-- Lookup in an association list embedding a JavaScript `Map`
(`Map.prototype.get`, with `none` for `undefined`). -/
def mapGet {α : Type} : List (String × α) → String → Option α
  | [], _ => none
  | p :: m, k => if p.1 = k then some p.2 else mapGet m k

/-- Update in an association list embedding a JavaScript `Map`
(`Map.prototype.set`: replace the entry in place when the key is present,
append a new entry at the end otherwise). -/
def mapSet {α : Type} : List (String × α) → String → α → List (String × α)
  | [], k, v => [(k, v)]
  | p :: m, k, v => if p.1 = k then (k, v) :: m else p :: mapSet m k v

/-- JavaScript `Set.prototype.add`: append the element unless it is already
a member (a `Set` iterates in insertion order). -/
def setAdd (x : String) (s : List String) : List String :=
  if x ∈ s then s else s ++ [x]

/-- A slot's occupancy record: the triple of sets stored per slot key
(solver line 75 and the `occupiedSlots` values). -/
structure SlotData where
  teachers : List String
  rooms : List String
  groups : List String
deriving DecidableEq, Repr

/-- The empty occupancy record created lazily by `addToSlot` (lines 149-153). -/
def SlotData.empty : SlotData := { teachers := [], rooms := [], groups := [] }

/-- The occupancy index `Map<string, {teachers, rooms, groups}>`. -/
abbrev OccupiedSlots : Type := List (String × SlotData)

/-- Maps from a string key to a bucket of assignments, used for
`separatedTimetables` and the grouping maps of `detectConflicts`. -/
abbrev GroupMap : Type := List (String × List Assignment)

/-- The `Map` idiom `if (!m.has(k)) m.set(k, []); m.get(k)!.push(a)` used at
solver lines 204-207, 227-230, 242-245, 265-268, 288-291. -/
def groupPush (m : GroupMap) (k : String) (a : Assignment) : GroupMap :=
  mapSet m k (((mapGet m k).getD []) ++ [a])

/-- Embeds the mapping table of `normalizeDay` (solver lines 36-47). -/
def dayMappings : List (String × String) :=
  [("monday", "Mon"), ("tuesday", "Tue"), ("wednesday", "Wed"), ("thursday", "Thu"),
   ("friday", "Fri"), ("mon", "Mon"), ("tue", "Tue"), ("wed", "Wed"), ("thu", "Thu"),
   ("fri", "Fri")]

/-- Embeds `normalizeDay` (solver lines 34-50): table lookup on the lower-cased
string, unrecognized input passes through unchanged. -/
def normalizeDay (day : String) : String :=
  (mapGet dayMappings (jsToLower day)).getD day

/-- The first maximal run of digits in a character list — the JavaScript
regexp match `period.match(/(\d+)/)` (solver line 54). -/
def firstDigitRun : List Char → Option (List Char)
  | [] => none
  | c :: rest => if c.isDigit then some (c :: rest.takeWhile Char.isDigit) else firstDigitRun rest

/-- Numeric value of a digit run — `parseInt` on the matched digits (solver
line 56).  Only membership of the value in `1..6` is ever observed, and on
that observation exact natural-number evaluation agrees with JavaScript
number semantics. -/
def digitsToNat (ds : List Char) : Nat :=
  ds.foldl (fun n c => n * 10 + (c.toNat - '0'.toNat)) 0

/-- Embeds `normalizePeriod` (solver lines 52-68). -/
def normalizePeriod (period : String) : String :=
  match firstDigitRun period.data with
  | some ds =>
    let periodNum := digitsToNat ds
    if 1 ≤ periodNum ∧ periodNum ≤ 6 then "P" ++ toString periodNum
    else if PERIODS.contains period then period
    else period
  | none =>
    if PERIODS.contains period then period
    else period

/-- The replacement `period.replace(/^period\s*/i, "P")` performed at solver
line 24: when the string starts with `period` case-insensitively, that token
and the following whitespace run are replaced by `P`. -/
def replacePeriodWord (s : String) : String :=
  if (s.data.take 6).map Char.toLower = ['p', 'e', 'r', 'i', 'o', 'd'] then
    String.mk ('P' :: (s.data.drop 6).dropWhile isJsSpace)
  else s

/-- Embeds `slotFromRow` (solver lines 22-32). -/
def slotFromRow (r : TimetableRow) : String :=
  let day := jsTrim r.day
  let period := jsTrim (replacePeriodWord r.period)
  let normalizedDay := normalizeDay day
  let normalizedPeriod := normalizePeriod period
  if normalizedDay = "" ∨ normalizedPeriod = "" then ""
  else normalizedDay ++ "-" ++ normalizedPeriod

/-- Embeds `Array.prototype.indexOf` on a list of strings, with `none` for `-1`. -/
def indexOfStr : List String → String → Option Nat
  | [], _ => none
  | x :: xs, s => if x = s then some 0 else (indexOfStr xs s).map (fun n => n + 1)

/-- Embeds `isSlotAvailable` (solver lines 124-139). -/
def isSlotAvailable (slot teacher room group : String) (occupiedSlots : OccupiedSlots) : Bool :=
  match mapGet occupiedSlots slot with
  | none => true
  | some slotData =>
    let teacherConflict := teacher ≠ "" && slotData.teachers.contains teacher
    let roomConflict := room ≠ "" && slotData.rooms.contains room
    let groupConflict := group ≠ "" && slotData.groups.contains group
    !teacherConflict && !roomConflict && !groupConflict

/-- The ordered sequence of candidate slots tested by the four search loops
of `findNextAvailableSlot` (solver lines 85-119): later periods of the same
day, then later days (periods ascending), then earlier periods of the same
day in decreasing order, then earlier days in decreasing day order (periods
ascending). -/
def candidateSlots (currentSlot : String) : List String :=
  let parts := (splitOnChar '-' currentSlot.data).map String.mk
  let currentDay := parts.headD ""
  let currentPeriod := (parts.get? 1).getD ""
  match indexOfStr DAYS currentDay, indexOfStr PERIODS currentPeriod with
  | some dayIndex, some periodIndex =>
    ((PERIODS.drop (periodIndex + 1)).map (fun p => currentDay ++ "-" ++ p))
    ++ ((DAYS.drop (dayIndex + 1)).map (fun d => PERIODS.map (fun p => d ++ "-" ++ p))).flatten
    ++ (((PERIODS.take periodIndex).reverse).map (fun p => currentDay ++ "-" ++ p))
    ++ (((DAYS.take dayIndex).reverse).map (fun d => PERIODS.map (fun p => d ++ "-" ++ p))).flatten
  | _, _ => []

/-- Embeds `findNextAvailableSlot` (solver lines 70-122): guard on an empty slot
string and on day/period components missing from `DAYS`/`PERIODS`, then
return the first available candidate in the four-phase order. -/
def findNextAvailableSlot (currentSlot teacher room group : String)
    (occupiedSlots : OccupiedSlots) : Option String :=
  if currentSlot = "" then none
  else
    let parts := (splitOnChar '-' currentSlot.data).map String.mk
    match indexOfStr DAYS (parts.headD ""), indexOfStr PERIODS ((parts.get? 1).getD "") with
    | some _, some _ =>
      (candidateSlots currentSlot).find?
        (fun slot => isSlotAvailable slot teacher room group occupiedSlots)
    | _, _ => none

/-- Embeds `addToSlot` (solver lines 141-160): create the slot's record lazily,
then add each non-empty trimmed resource identity to the matching set. -/
def addToSlot (slot teacher room group : String) (occupiedSlots : OccupiedSlots) : OccupiedSlots :=
  let slotData := (mapGet occupiedSlots slot).getD SlotData.empty
  let slotData := if jsTrim teacher ≠ "" then
    { slotData with teachers := setAdd (jsTrim teacher) slotData.teachers } else slotData
  let slotData := if jsTrim room ≠ "" then
    { slotData with rooms := setAdd (jsTrim room) slotData.rooms } else slotData
  let slotData := if jsTrim group ≠ "" then
    { slotData with groups := setAdd (jsTrim group) slotData.groups } else slotData
  mapSet occupiedSlots slot slotData

/-- The row filter of `mergeAndResolve` (solver lines 168-171). -/
def isValidRow (row : TimetableRow) : Bool :=
  let slot := slotFromRow row
  slot ≠ "" && slot.data.contains '-' && (row.teacher ≠ "" || row.room ≠ "" || row.group ≠ "")

/-- Mutable state threaded through the first pass of `mergeAndResolve`
(solver lines 163-165). -/
structure ResolveState where
  assignments : List Assignment
  separatedTimetables : GroupMap
  occupiedSlots : OccupiedSlots
deriving Repr

/-- The slot finally assigned to one row given the occupancy index at the
time the row is processed (solver lines 175-198). -/
def resolveAssignedSlot (occupiedSlots : OccupiedSlots) (row : TimetableRow) : String :=
  let originalSlot := slotFromRow row
  let teacher := jsTrim row.teacher
  let room := jsTrim row.room
  let group := jsTrim row.group
  let hasConflict := !(isSlotAvailable originalSlot teacher room group occupiedSlots)
  if hasConflict then
    match findNextAvailableSlot originalSlot teacher room group occupiedSlots with
    | some alternativeSlot => alternativeSlot
    | none => originalSlot
  else originalSlot

/-- One iteration of the first-pass loop of `mergeAndResolve` (solver lines
174-211): compute the assigned slot, append the assignment to the global
list and the per-source grouping, and commit the occupancy. -/
def resolveStep (st : ResolveState) (row : TimetableRow) : ResolveState :=
  let assignedSlot := resolveAssignedSlot st.occupiedSlots row
  let assignment : Assignment := { row with assignedSlot := assignedSlot }
  let sourceFile := if row.sourceFile = "" then "unknown" else row.sourceFile
  { assignments := st.assignments ++ [assignment]
  , separatedTimetables := groupPush st.separatedTimetables sourceFile assignment
  , occupiedSlots := addToSlot assignedSlot (jsTrim row.teacher) (jsTrim row.room)
      (jsTrim row.group) st.occupiedSlots }

/-- The grouping loops of `detectConflicts` (lines 224-231, 239-247,
262-270, 285-293): push each element whose key is non-empty onto the bucket
of its key. -/
def buildMap (key : Assignment → String) (l : List Assignment) : GroupMap :=
  l.foldl (fun m a => if key a = "" then m else groupPush m (key a) a) []

/-- The conflict-emission loops of `detectConflicts` (lines 249-258,
272-281, 295-304): one conflict per bucket of size at least two. -/
def conflictsOfMap (kind : ConflictType) (slot : String) (m : GroupMap) : List Conflict :=
  m.foldl
    (fun cs p =>
      if p.2.length > 1 then
        cs ++ [{ type := kind, slot := slot, conflictingEntries := p.2, resource := p.1 }]
      else cs)
    []

/-- The per-slot body of `detectConflicts` (solver lines 234-305). -/
def slotConflicts (slot : String) (slotAssignments : List Assignment) : List Conflict :=
  if slotAssignments.length ≤ 1 then []
  else
    conflictsOfMap ConflictType.teacher slot (buildMap (fun a => jsTrim a.teacher) slotAssignments)
    ++ conflictsOfMap ConflictType.room slot (buildMap (fun a => jsTrim a.room) slotAssignments)
    ++ conflictsOfMap ConflictType.group slot (buildMap (fun a => jsTrim a.group) slotAssignments)

/-- Embeds `detectConflicts` (solver lines 219-308). -/
def detectConflicts (assignments : List Assignment) : List Conflict :=
  let slotMap := buildMap (fun a => a.assignedSlot) assignments
  slotMap.foldl (fun conflicts p => conflicts ++ slotConflicts p.1 p.2) []

/-- Embeds `MergeResult` (solver lines 13-17). -/
structure MergeResult where
  assignments : List Assignment
  conflicts : List Conflict
  separatedTimetables : GroupMap
deriving Repr

/-- Embeds `mergeAndResolve` (solver lines 162-217). -/
def mergeAndResolve (rows : List TimetableRow) : MergeResult :=
  let validRows := rows.filter isValidRow
  let st := validRows.foldl resolveStep
    { assignments := [], separatedTimetables := [], occupiedSlots := [] }
  { assignments := st.assignments
  , conflicts := detectConflicts st.assignments
  , separatedTimetables := st.separatedTimetables }


/-- Bucket of a key in a grouping map, defaulting to the empty bucket. -/
def bucketD (m : GroupMap) (k : String) : List Assignment :=
  (mapGet m k).getD []

/-- Teacher set recorded at a slot of the occupancy index. -/
def teachersOf (occ : OccupiedSlots) (slot : String) : List String :=
  ((mapGet occ slot).getD SlotData.empty).teachers

/-- Room set recorded at a slot of the occupancy index. -/
def roomsOf (occ : OccupiedSlots) (slot : String) : List String :=
  ((mapGet occ slot).getD SlotData.empty).rooms

/-- Group set recorded at a slot of the occupancy index. -/
def groupsOf (occ : OccupiedSlots) (slot : String) : List String :=
  ((mapGet occ slot).getD SlotData.empty).groups

/-- The early-return guard of `findNextAvailableSlot` (solver lines 77-83):
the slot string is empty, or its first dash-separated component is not a
canonical day, or its second dash-separated component is not a canonical
period. -/
def slotGuardFails (slot : String) : Prop :=
  slot = "" ∨ ((splitOnChar '-' slot.data).map String.mk).headD "" ∉ DAYS
    ∨ (((splitOnChar '-' slot.data).map String.mk).get? 1).getD "" ∉ PERIODS

instance (slot : String) : Decidable (slotGuardFails slot) := by
  unfold slotGuardFails
  infer_instance


/-- A plain valid row requesting Mon-P1 with teacher "T". -/
def rowMonP1T : TimetableRow := { day := "Mon", period := "P1", teacher := "T" }

/-- Thirty identical copies of `rowMonP1T` (spec section 8, scenario B). -/
def rows30 : List TimetableRow := List.replicate 30 rowMonP1T

/-- The assignment produced for `rowMonP1T` when Mon-P1 is free. -/
def assignMonP1T : Assignment := { rowMonP1T with assignedSlot := "Mon-P1" }

/-- A row whose day is not recognizable but non-empty. -/
def xyzRow : TimetableRow := { day := "Xyz", period := "P1", teacher := "T" }

/-- The assignment produced for `xyzRow` (its garbage slot is kept). -/
def assignXyz : Assignment := { xyzRow with assignedSlot := "Xyz-P1" }

/-- A row whose only resource identity is whitespace. -/
def spaceTeacherRow : TimetableRow := { day := "Mon", period := "P1", teacher := " " }

/-- A row whose day itself contains dashes, so its slot key splits into more
than two components with a canonical day and period in front. -/
def garbageRow : TimetableRow := { day := "Mon-P1-huh", period := "2", teacher := "T" }

/-- An occupancy index in which teacher "T" holds Wed-P2..P6 and every Thu
and Fri slot, leaving Mon and Tue free. -/
def occWed : OccupiedSlots :=
  (["Wed-P2", "Wed-P3", "Wed-P4", "Wed-P5", "Wed-P6",
    "Thu-P1", "Thu-P2", "Thu-P3", "Thu-P4", "Thu-P5", "Thu-P6",
    "Fri-P1", "Fri-P2", "Fri-P3", "Fri-P4", "Fri-P5", "Fri-P6"]).foldl
    (fun occ slot => addToSlot slot "T" "" "" occ) []

/-- The phase-4 candidate order asserted by the specification: days before
the original day in day order (Mon first), periods ascending. -/
def mondayFirstEarlierDays (dayIndex : Nat) : List String :=
  ((DAYS.take dayIndex).map (fun d => PERIODS.map (fun p => d ++ "-" ++ p))).flatten

/-- Canonical slot key built from a day index and a period index. -/
def slotKey (dayIndex periodIndex : Nat) : String :=
  DAYS.getD dayIndex "" ++ "-" ++ PERIODS.getD periodIndex ""


theorem mapGet_mapSet_self {α : Type} (m : List (String × α)) (k : String) (v : α) :
    mapGet (mapSet m k v) k = some v := by
  induction m with
  | nil => simp [mapSet, mapGet]
  | cons p m ih =>
    by_cases h : p.1 = k
    · simp [mapSet, h, mapGet]
    · simp [mapSet, h, mapGet, ih]

theorem mapGet_mapSet_ne {α : Type} (m : List (String × α)) (k k' : String) (v : α)
    (h : k' ≠ k) : mapGet (mapSet m k v) k' = mapGet m k' := by
  induction m with
  | nil =>
    simp only [mapSet, mapGet]
    rw [if_neg (Ne.symm h)]
  | cons p m ih =>
    by_cases hp : p.1 = k
    · have hp' : p.1 ≠ k' := by rw [hp]; exact Ne.symm h
      simp only [mapSet, if_pos hp, mapGet]
      rw [if_neg (Ne.symm h), if_neg hp']
    · simp only [mapSet, if_neg hp, mapGet, ih]

theorem mapGet_eq_some_mem {α : Type} {m : List (String × α)} {k : String} {v : α}
    (h : mapGet m k = some v) : (k, v) ∈ m := by
  induction m with
  | nil => simp [mapGet] at h
  | cons p m ih =>
    rw [mapGet] at h
    by_cases hp : p.1 = k
    · rw [if_pos hp] at h
      injection h with h
      have : p = (k, v) := by
        cases p
        simp_all
      rw [← this]
      exact List.mem_cons_self _ _
    · rw [if_neg hp] at h
      exact List.mem_cons_of_mem _ (ih h)

theorem mapSet_mem {α : Type} {m : List (String × α)} {k : String} {v : α}
    {pe : String × α} (h : pe ∈ mapSet m k v) : pe = (k, v) ∨ pe ∈ m := by
  induction m with
  | nil => simpa [mapSet] using h
  | cons p m ih =>
    by_cases hp : p.1 = k
    · rw [mapSet, if_pos hp] at h
      rcases List.mem_cons.mp h with h | h
      · exact Or.inl h
      · exact Or.inr (List.mem_cons_of_mem _ h)
    · rw [mapSet, if_neg hp] at h
      rcases List.mem_cons.mp h with h | h
      · exact Or.inr (h ▸ List.mem_cons_self _ _)
      · rcases ih h with h | h
        · exact Or.inl h
        · exact Or.inr (List.mem_cons_of_mem _ h)

theorem bucketD_groupPush_self (m : GroupMap) (k : String) (a : Assignment) :
    bucketD (groupPush m k a) k = bucketD m k ++ [a] := by
  simp [bucketD, groupPush, mapGet_mapSet_self]

theorem bucketD_groupPush_ne (m : GroupMap) (k k' : String) (a : Assignment)
    (h : k' ≠ k) : bucketD (groupPush m k a) k' = bucketD m k' := by
  simp [bucketD, groupPush, mapGet_mapSet_ne _ _ _ _ h]

theorem bucketD_buildMap_go (key : Assignment → String) (l : List Assignment)
    (m : GroupMap) (k : String) (hk : k ≠ "") :
    bucketD (l.foldl (fun m a => if key a = "" then m else groupPush m (key a) a) m) k
      = bucketD m k ++ l.filter (fun a => key a == k) := by
  induction l generalizing m with
  | nil => simp
  | cons a l ih =>
    simp only [List.foldl_cons, List.filter_cons]
    by_cases ha : key a = ""
    · have hak : ¬ (key a == k) = true := by
        simp only [beq_iff_eq, ha]
        exact Ne.symm hk
      rw [if_pos ha, ih, if_neg hak]
    · rw [if_neg ha]
      by_cases hak : key a = k
      · rw [if_pos (by simp only [beq_iff_eq]; exact hak : (key a == k) = true)]
        rw [ih, hak, bucketD_groupPush_self]
        simp
      · rw [if_neg (by simp only [beq_iff_eq]; exact hak : ¬ (key a == k) = true)]
        rw [ih, bucketD_groupPush_ne _ _ _ _ (fun hh => hak hh.symm)]

theorem bucketD_buildMap (key : Assignment → String) (l : List Assignment)
    (k : String) (hk : k ≠ "") :
    bucketD (buildMap key l) k = l.filter (fun a => key a == k) := by
  have := bucketD_buildMap_go key l [] k hk
  simpa [buildMap, bucketD, mapGet] using this

theorem mapGet_of_bucketD_ne_nil {m : GroupMap} {k : String}
    (h : bucketD m k ≠ []) : mapGet m k = some (bucketD m k) := by
  cases hm : mapGet m k with
  | none => exact absurd (by simp [bucketD, hm]) h
  | some v => simp [bucketD, hm]

theorem two_le_length_filter {α : Type} (p : α → Bool) :
    ∀ (l : List α) (i j : Nat) (hi : i < l.length) (hj : j < l.length), i ≠ j →
      p (l.get ⟨i, hi⟩) = true → p (l.get ⟨j, hj⟩) = true → 2 ≤ (l.filter p).length := by
  intro l
  induction l with
  | nil => intro i j hi; exact absurd hi (by simp)
  | cons a t ih =>
    intro i j hi hj hne hpi hpj
    match i, j, hi, hj, hne, hpi, hpj with
    | 0, 0, _, _, hne, _, _ => exact absurd rfl hne
    | 0, j+1, hi, hj, _, hpi, hpj =>
      have hpa : p a = true := by simpa using hpi
      have hjt : j < t.length := by simpa using hj
      have hmem : t.get ⟨j, hjt⟩ ∈ t.filter p :=
        List.mem_filter.mpr ⟨List.get_mem t j hjt, by simpa using hpj⟩
      have h1 : 1 ≤ (t.filter p).length :=
        List.length_pos.mpr (List.ne_nil_of_mem hmem)
      rw [List.filter_cons_of_pos hpa]
      simpa using h1
    | i+1, 0, hi, hj, _, hpi, hpj =>
      have hpa : p a = true := by simpa using hpj
      have hit : i < t.length := by simpa using hi
      have hmem : t.get ⟨i, hit⟩ ∈ t.filter p :=
        List.mem_filter.mpr ⟨List.get_mem t i hit, by simpa using hpi⟩
      have h1 : 1 ≤ (t.filter p).length :=
        List.length_pos.mpr (List.ne_nil_of_mem hmem)
      rw [List.filter_cons_of_pos hpa]
      simpa using h1
    | i+1, j+1, hi, hj, hne, hpi, hpj =>
      have hit : i < t.length := by simpa using hi
      have hjt : j < t.length := by simpa using hj
      have hne' : i ≠ j := fun hh => hne (by rw [hh])
      have h2 := ih i j hit hjt hne' (by simpa using hpi) (by simpa using hpj)
      rw [List.filter_cons]
      split
      · exact Nat.le_succ_of_le h2
      · exact h2

theorem foldl_grow_mono {γ β : Type} (g : List γ → β → List γ)
    (hg : ∀ cs b c, c ∈ cs → c ∈ g cs b) :
    ∀ (l : List β) (init : List γ) (c : γ), c ∈ init → c ∈ l.foldl g init := by
  intro l
  induction l with
  | nil => intro init c h; simpa using h
  | cons b l ih => intro init c h; exact ih _ _ (hg _ _ _ h)

theorem foldl_grow_mem {γ β : Type} (g : List γ → β → List γ) (f : β → List γ)
    (hg : ∀ cs b c, c ∈ cs → c ∈ g cs b)
    (hf : ∀ cs b c, c ∈ f b → c ∈ g cs b) :
    ∀ (l : List β) (init : List γ) (b : β), b ∈ l → ∀ c ∈ f b, c ∈ l.foldl g init := by
  intro l
  induction l with
  | nil => intro init b hb; exact absurd hb (by simp)
  | cons b0 l ih =>
    intro init b hb c hc
    rcases List.mem_cons.mp hb with hb | hb
    · subst hb
      exact foldl_grow_mono g hg l _ c (hf _ _ _ hc)
    · exact ih _ b hb c hc

theorem foldl_grow_inv {γ β : Type} (g : List γ → β → List γ) (f : β → List γ)
    (hg : ∀ cs b c, c ∈ g cs b → c ∈ cs ∨ c ∈ f b) :
    ∀ (l : List β) (init : List γ) (c : γ), c ∈ l.foldl g init →
      c ∈ init ∨ ∃ b ∈ l, c ∈ f b := by
  intro l
  induction l with
  | nil => intro init c h; exact Or.inl (by simpa using h)
  | cons b l ih =>
    intro init c h
    rcases ih _ _ h with h | ⟨b', hb', hc⟩
    · rcases hg _ _ _ h with h | h
      · exact Or.inl h
      · exact Or.inr ⟨b, List.mem_cons_self _ _, h⟩
    · exact Or.inr ⟨b', List.mem_cons_of_mem _ hb', hc⟩

theorem detectConflicts_report {A : List Assignment} {s t : String}
    (hsne : s ≠ "") (htne : t ≠ "")
    (h2 : 2 ≤ (A.filter (fun x => jsTrim x.teacher == t && x.assignedSlot == s)).length) :
    ∃ c ∈ detectConflicts A, c.type = ConflictType.teacher ∧ c.slot = s ∧
      c.conflictingEntries
        = A.filter (fun x => jsTrim x.teacher == t && x.assignedSlot == s) := by
  have hff : (A.filter (fun x => x.assignedSlot == s)).filter (fun x => jsTrim x.teacher == t)
      = A.filter (fun x => jsTrim x.teacher == t && x.assignedSlot == s) :=
    List.filter_filter _ _
  have hinner : bucketD (buildMap (fun x => jsTrim x.teacher)
        (A.filter (fun x => x.assignedSlot == s))) t
      = A.filter (fun x => jsTrim x.teacher == t && x.assignedSlot == s) := by
    rw [bucketD_buildMap _ _ _ htne, hff]
  have houter : bucketD (buildMap (fun x => x.assignedSlot) A) s
      = A.filter (fun x => x.assignedSlot == s) :=
    bucketD_buildMap _ _ _ hsne
  have hsb2 : 2 ≤ (A.filter (fun x => x.assignedSlot == s)).length := by
    calc 2 ≤ (A.filter (fun x => jsTrim x.teacher == t && x.assignedSlot == s)).length := h2
    _ = ((A.filter (fun x => x.assignedSlot == s)).filter
          (fun x => jsTrim x.teacher == t)).length := by rw [hff]
    _ ≤ (A.filter (fun x => x.assignedSlot == s)).length := List.length_filter_le _ _
  have hes_ne : A.filter (fun x => jsTrim x.teacher == t && x.assignedSlot == s) ≠ [] := by
    intro hnil
    rw [hnil] at h2
    simp at h2
  have hsb_ne : A.filter (fun x => x.assignedSlot == s) ≠ [] := by
    intro hnil
    rw [hnil] at hsb2
    simp at hsb2
  have hentry1 : (s, A.filter (fun x => x.assignedSlot == s))
      ∈ buildMap (fun x => x.assignedSlot) A := by
    apply mapGet_eq_some_mem
    rw [← houter]
    exact mapGet_of_bucketD_ne_nil (by rw [houter]; exact hsb_ne)
  have hentry2 : (t, A.filter (fun x => jsTrim x.teacher == t && x.assignedSlot == s))
      ∈ buildMap (fun x => jsTrim x.teacher) (A.filter (fun x => x.assignedSlot == s)) := by
    apply mapGet_eq_some_mem
    rw [← hinner]
    exact mapGet_of_bucketD_ne_nil (by rw [hinner]; exact hes_ne)
  set es := A.filter (fun x => jsTrim x.teacher == t && x.assignedSlot == s) with hes
  set sb := A.filter (fun x => x.assignedSlot == s) with hsbdef
  have hg : ∀ (cs : List Conflict) (p : String × List Assignment) (c : Conflict),
      c ∈ cs → c ∈ (if p.2.length > 1 then
        cs ++ [(⟨ConflictType.teacher, s, p.2, p.1⟩ : Conflict)] else cs) := by
    intro cs p c hc
    split
    · exact List.mem_append_left _ hc
    · exact hc
  have hf : ∀ (cs : List Conflict) (p : String × List Assignment) (c : Conflict),
      c ∈ (if p.2.length > 1 then [(⟨ConflictType.teacher, s, p.2, p.1⟩ : Conflict)] else []) →
      c ∈ (if p.2.length > 1 then
        cs ++ [(⟨ConflictType.teacher, s, p.2, p.1⟩ : Conflict)] else cs) := by
    intro cs p c hc
    by_cases hp : p.2.length > 1
    · rw [if_pos hp] at hc ⊢
      exact List.mem_append_right _ hc
    · rw [if_neg hp] at hc
      exact absurd hc (by simp)
  have hc1 : (⟨ConflictType.teacher, s, es, t⟩ : Conflict) ∈
      conflictsOfMap ConflictType.teacher s (buildMap (fun x => jsTrim x.teacher) sb) := by
    unfold conflictsOfMap
    refine foldl_grow_mem _
      (fun p => if p.2.length > 1 then [(⟨ConflictType.teacher, s, p.2, p.1⟩ : Conflict)] else [])
      hg hf _ _ (t, es) hentry2 _ ?_
    show (⟨ConflictType.teacher, s, es, t⟩ : Conflict) ∈
      (if es.length > 1 then [(⟨ConflictType.teacher, s, es, t⟩ : Conflict)] else [])
    rw [if_pos (by omega : es.length > 1)]
    exact List.mem_singleton.mpr rfl
  have hc2 : (⟨ConflictType.teacher, s, es, t⟩ : Conflict) ∈ slotConflicts s sb := by
    unfold slotConflicts
    rw [if_neg (by omega : ¬ sb.length ≤ 1)]
    exact List.mem_append_left _ (List.mem_append_left _ hc1)
  refine ⟨⟨ConflictType.teacher, s, es, t⟩, ?_, rfl, rfl, rfl⟩
  unfold detectConflicts
  exact foldl_grow_mem
    (g := fun cs p => cs ++ slotConflicts p.1 p.2)
    (f := fun p : String × List Assignment => slotConflicts p.1 p.2)
    (fun cs b c hc => List.mem_append_left _ hc)
    (fun cs b c hc => List.mem_append_right _ hc)
    _ _ (s, sb) hentry1 _ hc2

theorem indexOfStr_some_mem {l : List String} {s : String} {i : Nat}
    (h : indexOfStr l s = some i) : s ∈ l := by
  induction l generalizing i with
  | nil => simp [indexOfStr] at h
  | cons x xs ih =>
    rw [indexOfStr] at h
    by_cases hx : x = s
    · rw [← hx]
      exact List.mem_cons_self _ _
    · rw [if_neg hx] at h
      cases hrec : indexOfStr xs s with
      | none => rw [hrec] at h; simp at h
      | some n => exact List.mem_cons_of_mem _ (ih hrec)

theorem indexOfStr_eq_none {l : List String} {s : String} (h : s ∉ l) :
    indexOfStr l s = none := by
  induction l with
  | nil => rfl
  | cons x xs ih =>
    have hx : x ≠ s := fun hx => h (hx ▸ List.mem_cons_self x xs)
    rw [indexOfStr, if_neg hx, ih (fun hm => h (List.mem_cons_of_mem _ hm))]
    rfl

theorem canonical_of_day_period : ∀ d ∈ DAYS, ∀ p ∈ PERIODS, d ++ "-" ++ p ∈ canonicalSlots := by
  decide

theorem canonicalSlots_ne_empty : ∀ s ∈ canonicalSlots, s ≠ "" := by decide

theorem isCanonicalSlot_iff {s : String} : isCanonicalSlot s = true ↔ s ∈ canonicalSlots := by
  simp [isCanonicalSlot, List.elem_iff]

theorem candidateSlots_subset_canonical {c s : String} (h : s ∈ candidateSlots c) :
    s ∈ canonicalSlots := by
  simp only [candidateSlots] at h
  cases hd : indexOfStr DAYS (((splitOnChar '-' c.data).map String.mk).headD "") with
  | none => rw [hd] at h; simp at h
  | some dayIndex =>
    cases hp : indexOfStr PERIODS (((((splitOnChar '-' c.data).map String.mk)).get? 1).getD "") with
    | none => rw [hd, hp] at h; simp at h
    | some periodIndex =>
      rw [hd, hp] at h
      have hday : ((splitOnChar '-' c.data).map String.mk).headD "" ∈ DAYS :=
        indexOfStr_some_mem hd
      rcases List.mem_append.mp h with h123 | h4
      · rcases List.mem_append.mp h123 with h12 | h3
        · rcases List.mem_append.mp h12 with h1 | h2
          · rcases List.mem_map.mp h1 with ⟨p, hp1, rfl⟩
            exact canonical_of_day_period _ hday _ (List.mem_of_mem_drop hp1)
          · rcases List.mem_flatten.mp h2 with ⟨inner, hinner, hs⟩
            rcases List.mem_map.mp hinner with ⟨d, hd1, rfl⟩
            rcases List.mem_map.mp hs with ⟨p, hp1, rfl⟩
            exact canonical_of_day_period _ (List.mem_of_mem_drop hd1) _ hp1
        · rcases List.mem_map.mp h3 with ⟨p, hp1, rfl⟩
          exact canonical_of_day_period _ hday _
            (List.mem_of_mem_take (List.mem_reverse.mp hp1))
      · rcases List.mem_flatten.mp h4 with ⟨inner, hinner, hs⟩
        rcases List.mem_map.mp hinner with ⟨d, hd1, rfl⟩
        rcases List.mem_map.mp hs with ⟨p, hp1, rfl⟩
        exact canonical_of_day_period _
          (List.mem_of_mem_take (List.mem_reverse.mp hd1)) _ hp1

theorem findNextAvailableSlot_mem {c t r g : String} {occ : OccupiedSlots} {s : String}
    (h : findNextAvailableSlot c t r g occ = some s) : s ∈ candidateSlots c := by
  simp only [findNextAvailableSlot] at h
  by_cases hc : c = ""
  · rw [if_pos hc] at h; simp at h
  · rw [if_neg hc] at h
    cases hd : indexOfStr DAYS (((splitOnChar '-' c.data).map String.mk).headD "") with
    | none => rw [hd] at h; simp at h
    | some dayIndex =>
      cases hp : indexOfStr PERIODS (((((splitOnChar '-' c.data).map String.mk)).get? 1).getD "") with
      | none => rw [hd, hp] at h; simp at h
      | some periodIndex =>
        rw [hd, hp] at h
        exact List.mem_of_find?_eq_some h

theorem findNextAvailableSlot_guard_none {slot t r g : String} {occ : OccupiedSlots}
    (h : slotGuardFails slot) : findNextAvailableSlot slot t r g occ = none := by
  simp only [findNextAvailableSlot]
  by_cases hs : slot = ""
  · rw [if_pos hs]
  · rw [if_neg hs]
    rcases h with h | h | h
    · exact absurd h hs
    · rw [indexOfStr_eq_none h]
    · rw [indexOfStr_eq_none h]
      cases indexOfStr DAYS (((splitOnChar '-' slot.data).map String.mk).headD "") <;> rfl

theorem resolveStep_assignments (st : ResolveState) (row : TimetableRow) :
    (resolveStep st row).assignments
      = st.assignments ++ [{ row with assignedSlot := resolveAssignedSlot st.occupiedSlots row }] :=
  rfl

theorem resolveStep_occupied (st : ResolveState) (row : TimetableRow) :
    (resolveStep st row).occupiedSlots
      = addToSlot (resolveAssignedSlot st.occupiedSlots row) (jsTrim row.teacher)
          (jsTrim row.room) (jsTrim row.group) st.occupiedSlots :=
  rfl

theorem resolveStep_sep (st : ResolveState) (row : TimetableRow) :
    (resolveStep st row).separatedTimetables
      = groupPush st.separatedTimetables
          (if row.sourceFile = "" then "unknown" else row.sourceFile)
          { row with assignedSlot := resolveAssignedSlot st.occupiedSlots row } :=
  rfl

theorem resolve_foldl_forall (P : Assignment → Prop)
    (hstep : ∀ (occ : OccupiedSlots) (row : TimetableRow), isValidRow row = true →
      P { row with assignedSlot := resolveAssignedSlot occ row }) :
    ∀ (l : List TimetableRow) (st : ResolveState),
      (∀ row ∈ l, isValidRow row = true) →
      (∀ a ∈ st.assignments, P a) →
      ∀ a ∈ (l.foldl resolveStep st).assignments, P a := by
  intro l
  induction l with
  | nil => intro st _ hst a ha; exact hst a (by simpa using ha)
  | cons row l ih =>
    intro st hv hst a ha
    rw [List.foldl_cons] at ha
    refine ih _ (fun r hr => hv r (List.mem_cons_of_mem _ hr)) ?_ a ha
    intro b hb
    rw [resolveStep_assignments] at hb
    rcases List.mem_append.mp hb with hb | hb
    · exact hst b hb
    · rw [List.mem_singleton.mp hb]
      exact hstep st.occupiedSlots row (hv row (List.mem_cons_self _ _))

theorem mergeAndResolve_forall (P : Assignment → Prop)
    (hstep : ∀ (occ : OccupiedSlots) (row : TimetableRow), isValidRow row = true →
      P { row with assignedSlot := resolveAssignedSlot occ row }) :
    ∀ (rows : List TimetableRow), ∀ a ∈ (mergeAndResolve rows).assignments, P a := by
  intro rows a ha
  refine resolve_foldl_forall P hstep (rows.filter isValidRow)
    { assignments := [], separatedTimetables := [], occupiedSlots := [] }
    (fun row hr => (List.mem_filter.mp hr).2) (by simp) a ?_
  simpa [mergeAndResolve] using ha

theorem isValidRow_slot_ne {row : TimetableRow} (h : isValidRow row = true) :
    slotFromRow row ≠ "" := by
  simp only [isValidRow, Bool.and_eq_true, decide_eq_true_eq] at h
  exact h.1.1

theorem resolveAssignedSlot_cases (occ : OccupiedSlots) (row : TimetableRow) :
    resolveAssignedSlot occ row = slotFromRow row ∨
      ∃ s, findNextAvailableSlot (slotFromRow row) (jsTrim row.teacher) (jsTrim row.room)
        (jsTrim row.group) occ = some s ∧ resolveAssignedSlot occ row = s := by
  simp only [resolveAssignedSlot]
  cases hava : isSlotAvailable (slotFromRow row) (jsTrim row.teacher) (jsTrim row.room)
      (jsTrim row.group) occ with
  | true => simp [hava]
  | false =>
    simp only [hava, Bool.not_false, if_true]
    cases hf : findNextAvailableSlot (slotFromRow row) (jsTrim row.teacher) (jsTrim row.room)
        (jsTrim row.group) occ with
    | none => exact Or.inl rfl
    | some s => exact Or.inr ⟨s, rfl, rfl⟩

theorem mergeAndResolve_assignedSlot_spec :
    ∀ (rows : List TimetableRow), ∀ a ∈ (mergeAndResolve rows).assignments,
      a.assignedSlot ≠ "" ∧
        (isCanonicalSlot a.assignedSlot = true ∨ a.assignedSlot = slotFromRow a.toTimetableRow) := by
  refine mergeAndResolve_forall _ ?_
  intro occ row hvalid
  show resolveAssignedSlot occ row ≠ "" ∧
    (isCanonicalSlot (resolveAssignedSlot occ row) = true ∨
      resolveAssignedSlot occ row = slotFromRow row)
  rcases resolveAssignedSlot_cases occ row with h | ⟨s, hf, h⟩
  · rw [h]
    exact ⟨isValidRow_slot_ne hvalid, Or.inr rfl⟩
  · rw [h]
    have hcan : s ∈ canonicalSlots :=
      candidateSlots_subset_canonical (findNextAvailableSlot_mem hf)
    exact ⟨canonicalSlots_ne_empty s hcan, Or.inl (isCanonicalSlot_iff.mpr hcan)⟩

theorem mergeAndResolve_guard_keeps_original :
    ∀ (rows : List TimetableRow), ∀ a ∈ (mergeAndResolve rows).assignments,
      slotGuardFails (slotFromRow a.toTimetableRow) →
        a.assignedSlot = slotFromRow a.toTimetableRow := by
  refine mergeAndResolve_forall _ ?_
  intro occ row _
  show slotGuardFails (slotFromRow row) → resolveAssignedSlot occ row = slotFromRow row
  intro hguard
  rcases resolveAssignedSlot_cases occ row with h | ⟨s, hf, h⟩
  · exact h
  · rw [findNextAvailableSlot_guard_none hguard] at hf
    cases hf

theorem resolve_foldl_map_toRow :
    ∀ (l : List TimetableRow) (st : ResolveState),
      ((l.foldl resolveStep st).assignments).map (fun a => a.toTimetableRow)
        = st.assignments.map (fun a => a.toTimetableRow) ++ l := by
  intro l
  induction l with
  | nil => intro st; simp
  | cons row l ih =>
    intro st
    rw [List.foldl_cons, ih, resolveStep_assignments]
    simp

theorem mergeAndResolve_toRows (rows : List TimetableRow) :
    ((mergeAndResolve rows).assignments).map (fun a => a.toTimetableRow)
      = rows.filter isValidRow := by
  simpa [mergeAndResolve] using
    resolve_foldl_map_toRow (rows.filter isValidRow)
      { assignments := [], separatedTimetables := [], occupiedSlots := [] }

theorem buildMap_go_entry_subset (key : Assignment → String) (L : List Assignment) :
    ∀ (l : List Assignment), (∀ b ∈ l, b ∈ L) →
      ∀ (m : GroupMap), (∀ pe ∈ m, ∀ x ∈ pe.2, x ∈ L) →
      ∀ pe ∈ l.foldl (fun m a => if key a = "" then m else groupPush m (key a) a) m,
        ∀ x ∈ pe.2, x ∈ L := by
  intro l
  induction l with
  | nil => intro _ m hm pe hpe; exact hm pe hpe
  | cons a l ih =>
    intro hl m hm
    rw [List.foldl_cons]
    apply ih (fun b hb => hl b (List.mem_cons_of_mem _ hb))
    intro pe hpe x hx
    by_cases ha : key a = ""
    · rw [if_pos ha] at hpe
      exact hm pe hpe x hx
    · rw [if_neg ha] at hpe
      rcases mapSet_mem hpe with rfl | hpe
      · rcases List.mem_append.mp hx with hx | hx
        · cases hg : mapGet m (key a) with
          | none => rw [hg] at hx; simp at hx
          | some v => rw [hg] at hx; exact hm (key a, v) (mapGet_eq_some_mem hg) x hx
        · rw [List.mem_singleton.mp hx]
          exact hl a (List.mem_cons_self _ _)
      · exact hm pe hpe x hx

theorem buildMap_entry_subset {key : Assignment → String} {l : List Assignment}
    {pe : String × List Assignment} (h : pe ∈ buildMap key l) : ∀ x ∈ pe.2, x ∈ l :=
  buildMap_go_entry_subset key l l (fun b hb => hb) [] (by simp) pe h

theorem conflictsOfMap_inv {kind : ConflictType} {slot : String} {m : GroupMap} {c : Conflict}
    (h : c ∈ conflictsOfMap kind slot m) :
    ∃ pe ∈ m, c = ⟨kind, slot, pe.2, pe.1⟩ := by
  unfold conflictsOfMap at h
  have hinv := foldl_grow_inv
    (g := fun cs p => if p.2.length > 1 then cs ++ [(⟨kind, slot, p.2, p.1⟩ : Conflict)] else cs)
    (f := fun p : String × List Assignment =>
      if p.2.length > 1 then [(⟨kind, slot, p.2, p.1⟩ : Conflict)] else [])
    ?_ m [] c h
  · rcases hinv with hinv | ⟨pe, hpe, hc⟩
    · simp at hinv
    · refine ⟨pe, hpe, ?_⟩
      simp only [] at hc
      by_cases hb : pe.2.length > 1
      · rw [if_pos hb] at hc
        exact List.mem_singleton.mp hc
      · rw [if_neg hb] at hc
        exact absurd hc (by simp)
  · intro cs b c' hc
    simp only [] at hc ⊢
    by_cases hb : b.2.length > 1
    · rw [if_pos hb] at hc
      rcases List.mem_append.mp hc with hc | hc
      · exact Or.inl hc
      · exact Or.inr (by rw [if_pos hb]; exact hc)
    · rw [if_neg hb] at hc
      exact Or.inl hc

theorem slotConflicts_entries_subset {s : String} {sa : List Assignment} {c : Conflict}
    (h : c ∈ slotConflicts s sa) : ∀ e ∈ c.conflictingEntries, e ∈ sa := by
  unfold slotConflicts at h
  by_cases hlen : sa.length ≤ 1
  · rw [if_pos hlen] at h
    simp at h
  · rw [if_neg hlen] at h
    intro e he
    rcases List.mem_append.mp h with h12 | h3
    · rcases List.mem_append.mp h12 with h1 | h2
      · rcases conflictsOfMap_inv h1 with ⟨pe, hpe, rfl⟩
        exact buildMap_entry_subset hpe e he
      · rcases conflictsOfMap_inv h2 with ⟨pe, hpe, rfl⟩
        exact buildMap_entry_subset hpe e he
    · rcases conflictsOfMap_inv h3 with ⟨pe, hpe, rfl⟩
      exact buildMap_entry_subset hpe e he

theorem detectConflicts_entries_subset {A : List Assignment} {c : Conflict}
    (h : c ∈ detectConflicts A) : ∀ e ∈ c.conflictingEntries, e ∈ A := by
  unfold detectConflicts at h
  have hinv := foldl_grow_inv
    (g := fun cs p => cs ++ slotConflicts p.1 p.2)
    (f := fun p : String × List Assignment => slotConflicts p.1 p.2)
    (fun cs b c' hc => List.mem_append.mp hc)
    _ _ _ h
  rcases hinv with hinv | ⟨pe, hpe, hc⟩
  · simp at hinv
  · intro e he
    exact buildMap_entry_subset hpe e (slotConflicts_entries_subset hc e he)

theorem resolve_foldl_sep_subset :
    ∀ (l : List TimetableRow) (st : ResolveState),
      (∀ pe ∈ st.separatedTimetables, ∀ x ∈ pe.2, x ∈ st.assignments) →
      ∀ pe ∈ (l.foldl resolveStep st).separatedTimetables,
        ∀ x ∈ pe.2, x ∈ (l.foldl resolveStep st).assignments := by
  intro l
  induction l with
  | nil => intro st hm pe hpe; exact hm pe hpe
  | cons row l ih =>
    intro st hm
    rw [List.foldl_cons]
    apply ih
    intro pe hpe x hx
    rw [resolveStep_sep] at hpe
    rw [resolveStep_assignments]
    rcases mapSet_mem hpe with rfl | hpe
    · rcases List.mem_append.mp hx with hx | hx
      · cases hg : mapGet st.separatedTimetables
            (if row.sourceFile = "" then "unknown" else row.sourceFile) with
        | none => rw [hg] at hx; simp at hx
        | some v =>
          rw [hg] at hx
          exact List.mem_append_left _ (hm _ (mapGet_eq_some_mem hg) x hx)
      · rw [List.mem_singleton.mp hx]
        exact List.mem_append_right _ (List.mem_singleton.mpr rfl)
    · exact List.mem_append_left _ (hm pe hpe x hx)

theorem mergeAndResolve_sep_subset (rows : List TimetableRow) :
    ∀ pe ∈ (mergeAndResolve rows).separatedTimetables,
      ∀ x ∈ pe.2, x ∈ (mergeAndResolve rows).assignments := by
  intro pe hpe x hx
  have := resolve_foldl_sep_subset (rows.filter isValidRow)
    { assignments := [], separatedTimetables := [], occupiedSlots := [] }
    (by simp) pe (by simpa [mergeAndResolve] using hpe) x hx
  simpa [mergeAndResolve] using this

theorem setAdd_mem_self (x : String) (s : List String) : x ∈ setAdd x s := by
  unfold setAdd
  split
  · assumption
  · exact List.mem_append_right _ (List.mem_singleton.mpr rfl)

theorem setAdd_mem_of_mem {y : String} {s : List String} (x : String) (h : y ∈ s) :
    y ∈ setAdd x s := by
  unfold setAdd
  split
  · exact h
  · exact List.mem_append_left _ h

theorem setAdd_idem (x : String) (s : List String) : setAdd x (setAdd x s) = setAdd x s := by
  show (if x ∈ setAdd x s then setAdd x s else setAdd x s ++ [x]) = setAdd x s
  rw [if_pos (setAdd_mem_self x s)]

theorem mapSet_mapSet {α : Type} (m : List (String × α)) (k : String) (v v' : α) :
    mapSet (mapSet m k v) k v' = mapSet m k v' := by
  induction m with
  | nil => simp [mapSet]
  | cons p m ih =>
    by_cases hp : p.1 = k
    · simp [mapSet, hp]
    · simp [mapSet, hp, ih]

theorem teachersOf_addToSlot_self (slot t r g : String) (occ : OccupiedSlots) :
    teachersOf (addToSlot slot t r g occ) slot
      = if jsTrim t ≠ "" then setAdd (jsTrim t) (teachersOf occ slot)
        else teachersOf occ slot := by
  simp only [addToSlot, teachersOf, mapGet_mapSet_self, Option.getD_some]
  by_cases ht : jsTrim t ≠ "" <;> by_cases hr : jsTrim r ≠ "" <;> by_cases hg : jsTrim g ≠ "" <;>
    simp [ht, hr, hg]

theorem roomsOf_addToSlot_self (slot t r g : String) (occ : OccupiedSlots) :
    roomsOf (addToSlot slot t r g occ) slot
      = if jsTrim r ≠ "" then setAdd (jsTrim r) (roomsOf occ slot)
        else roomsOf occ slot := by
  simp only [addToSlot, roomsOf, mapGet_mapSet_self, Option.getD_some]
  by_cases ht : jsTrim t ≠ "" <;> by_cases hr : jsTrim r ≠ "" <;> by_cases hg : jsTrim g ≠ "" <;>
    simp [ht, hr, hg]

theorem groupsOf_addToSlot_self (slot t r g : String) (occ : OccupiedSlots) :
    groupsOf (addToSlot slot t r g occ) slot
      = if jsTrim g ≠ "" then setAdd (jsTrim g) (groupsOf occ slot)
        else groupsOf occ slot := by
  simp only [addToSlot, groupsOf, mapGet_mapSet_self, Option.getD_some]
  by_cases ht : jsTrim t ≠ "" <;> by_cases hr : jsTrim r ≠ "" <;> by_cases hg : jsTrim g ≠ "" <;>
    simp [ht, hr, hg]

theorem teachersOf_addToSlot_ne (slot' t r g : String) (occ : OccupiedSlots) {slot : String}
    (h : slot ≠ slot') : teachersOf (addToSlot slot' t r g occ) slot = teachersOf occ slot := by
  simp only [addToSlot, teachersOf]
  rw [mapGet_mapSet_ne _ _ _ _ h]

theorem roomsOf_addToSlot_ne (slot' t r g : String) (occ : OccupiedSlots) {slot : String}
    (h : slot ≠ slot') : roomsOf (addToSlot slot' t r g occ) slot = roomsOf occ slot := by
  simp only [addToSlot, roomsOf]
  rw [mapGet_mapSet_ne _ _ _ _ h]

theorem groupsOf_addToSlot_ne (slot' t r g : String) (occ : OccupiedSlots) {slot : String}
    (h : slot ≠ slot') : groupsOf (addToSlot slot' t r g occ) slot = groupsOf occ slot := by
  simp only [addToSlot, groupsOf]
  rw [mapGet_mapSet_ne _ _ _ _ h]

theorem addToSlot_teachers_mono {occ : OccupiedSlots} {slot x : String} (slot' t r g : String)
    (h : x ∈ teachersOf occ slot) : x ∈ teachersOf (addToSlot slot' t r g occ) slot := by
  by_cases hs : slot = slot'
  · subst hs
    rw [teachersOf_addToSlot_self]
    split
    · exact setAdd_mem_of_mem _ h
    · exact h
  · rw [teachersOf_addToSlot_ne _ _ _ _ _ hs]
    exact h

theorem addToSlot_rooms_mono {occ : OccupiedSlots} {slot x : String} (slot' t r g : String)
    (h : x ∈ roomsOf occ slot) : x ∈ roomsOf (addToSlot slot' t r g occ) slot := by
  by_cases hs : slot = slot'
  · subst hs
    rw [roomsOf_addToSlot_self]
    split
    · exact setAdd_mem_of_mem _ h
    · exact h
  · rw [roomsOf_addToSlot_ne _ _ _ _ _ hs]
    exact h

theorem addToSlot_groups_mono {occ : OccupiedSlots} {slot x : String} (slot' t r g : String)
    (h : x ∈ groupsOf occ slot) : x ∈ groupsOf (addToSlot slot' t r g occ) slot := by
  by_cases hs : slot = slot'
  · subst hs
    rw [groupsOf_addToSlot_self]
    split
    · exact setAdd_mem_of_mem _ h
    · exact h
  · rw [groupsOf_addToSlot_ne _ _ _ _ _ hs]
    exact h

theorem addToSlot_idem (slot t r g : String) (occ : OccupiedSlots) :
    addToSlot slot t r g (addToSlot slot t r g occ) = addToSlot slot t r g occ := by
  simp only [addToSlot, mapGet_mapSet_self, Option.getD_some, mapSet_mapSet]
  by_cases ht : jsTrim t ≠ "" <;> by_cases hr : jsTrim r ≠ "" <;> by_cases hg : jsTrim g ≠ "" <;>
    simp [ht, hr, hg, setAdd_idem]

theorem teachersOf_foldl_mono :
    ∀ (l : List TimetableRow) (st : ResolveState) (slot x : String),
      x ∈ teachersOf st.occupiedSlots slot →
      x ∈ teachersOf (l.foldl resolveStep st).occupiedSlots slot := by
  intro l
  induction l with
  | nil => intro st slot x h; exact h
  | cons row l ih =>
    intro st slot x h
    rw [List.foldl_cons]
    refine ih _ slot x ?_
    rw [resolveStep_occupied]
    exact addToSlot_teachers_mono _ _ _ _ h

theorem roomsOf_foldl_mono :
    ∀ (l : List TimetableRow) (st : ResolveState) (slot x : String),
      x ∈ roomsOf st.occupiedSlots slot →
      x ∈ roomsOf (l.foldl resolveStep st).occupiedSlots slot := by
  intro l
  induction l with
  | nil => intro st slot x h; exact h
  | cons row l ih =>
    intro st slot x h
    rw [List.foldl_cons]
    refine ih _ slot x ?_
    rw [resolveStep_occupied]
    exact addToSlot_rooms_mono _ _ _ _ h

theorem groupsOf_foldl_mono :
    ∀ (l : List TimetableRow) (st : ResolveState) (slot x : String),
      x ∈ groupsOf st.occupiedSlots slot →
      x ∈ groupsOf (l.foldl resolveStep st).occupiedSlots slot := by
  intro l
  induction l with
  | nil => intro st slot x h; exact h
  | cons row l ih =>
    intro st slot x h
    rw [List.foldl_cons]
    refine ih _ slot x ?_
    rw [resolveStep_occupied]
    exact addToSlot_groups_mono _ _ _ _ h

theorem dropWhile_dropWhile {α : Type} (p : α → Bool) (l : List α) :
    (l.dropWhile p).dropWhile p = l.dropWhile p := by
  induction l with
  | nil => rfl
  | cons a l ih =>
    by_cases hp : p a
    · rw [List.dropWhile_cons_of_pos hp]
      exact ih
    · rw [List.dropWhile_cons_of_neg hp, List.dropWhile_cons_of_neg hp]

theorem dropWhile_head_false {α : Type} {p : α → Bool} {x : α} {l : List α}
    (h : (x :: l).dropWhile p = x :: l) : p x = false := by
  by_cases hp : p x
  · rw [List.dropWhile_cons_of_pos hp] at h
    have hlen := congrArg List.length h
    have hle := (List.dropWhile_sublist (l := l) p).length_le
    simp at hlen
    omega
  · exact Bool.eq_false_iff.mpr hp

theorem trimChars_idem (p : Char → Bool) (l : List Char) :
    (((((((l.dropWhile p).reverse.dropWhile p).reverse).dropWhile p).reverse).dropWhile p).reverse)
      = ((l.dropWhile p).reverse.dropWhile p).reverse := by
  have hyd : (l.dropWhile p).dropWhile p = l.dropWhile p := dropWhile_dropWhile p l
  obtain ⟨u, hu⟩ := List.dropWhile_suffix (l := (l.dropWhile p).reverse) p
  have hy2 : l.dropWhile p
      = ((l.dropWhile p).reverse.dropWhile p).reverse ++ u.reverse := by
    have hrev := congrArg List.reverse hu
    simpa using hrev.symm
  have hstep1 : ((l.dropWhile p).reverse.dropWhile p).reverse.dropWhile p
      = ((l.dropWhile p).reverse.dropWhile p).reverse := by
    cases hwr : ((l.dropWhile p).reverse.dropWhile p).reverse with
    | nil => rfl
    | cons z zs =>
      have hyz : l.dropWhile p = z :: (zs ++ u.reverse) := by
        rw [hy2, hwr]
        rfl
      have hz : p z = false := by
        have hcount := hyd
        rw [hyz] at hcount
        exact dropWhile_head_false hcount
      rw [List.dropWhile_cons_of_neg (by simp [hz])]
  rw [hstep1, List.reverse_reverse, dropWhile_dropWhile]

theorem jsTrim_idem (s : String) : jsTrim (jsTrim s) = jsTrim s :=
  congrArg String.mk (trimChars_idem isJsSpace s.data)

/-- C1 : for any input rows and any two distinct positions among the produced
assignments whose teacher fields are non-empty and equal after trimming,
either the two assignments received different slots, or the conflicts list
holds a teacher conflict at their shared assigned slot containing both. -/
theorem C1_teacher_conflict_surfaced (rows : List TimetableRow) (i j : Nat)
    (hi : i < (mergeAndResolve rows).assignments.length)
    (hj : j < (mergeAndResolve rows).assignments.length) (hne : i ≠ j)
    (htne : jsTrim ((mergeAndResolve rows).assignments.get ⟨i, hi⟩).teacher ≠ "")
    (hteq : jsTrim ((mergeAndResolve rows).assignments.get ⟨i, hi⟩).teacher
      = jsTrim ((mergeAndResolve rows).assignments.get ⟨j, hj⟩).teacher) :
    ((mergeAndResolve rows).assignments.get ⟨i, hi⟩).assignedSlot
        ≠ ((mergeAndResolve rows).assignments.get ⟨j, hj⟩).assignedSlot ∨
      ∃ c ∈ (mergeAndResolve rows).conflicts, c.type = ConflictType.teacher ∧
        c.slot = ((mergeAndResolve rows).assignments.get ⟨i, hi⟩).assignedSlot ∧
        (mergeAndResolve rows).assignments.get ⟨i, hi⟩ ∈ c.conflictingEntries ∧
        (mergeAndResolve rows).assignments.get ⟨j, hj⟩ ∈ c.conflictingEntries := by
  by_cases hs : ((mergeAndResolve rows).assignments.get ⟨i, hi⟩).assignedSlot
      = ((mergeAndResolve rows).assignments.get ⟨j, hj⟩).assignedSlot
  · right
    have hconf : (mergeAndResolve rows).conflicts
        = detectConflicts (mergeAndResolve rows).assignments := rfl
    have hsne : ((mergeAndResolve rows).assignments.get ⟨i, hi⟩).assignedSlot ≠ "" :=
      (mergeAndResolve_assignedSlot_spec rows _
        (List.get_mem (mergeAndResolve rows).assignments i hi)).1
    have h2 : 2 ≤ ((mergeAndResolve rows).assignments.filter (fun x =>
        jsTrim x.teacher == jsTrim ((mergeAndResolve rows).assignments.get ⟨i, hi⟩).teacher &&
        x.assignedSlot == ((mergeAndResolve rows).assignments.get ⟨i, hi⟩).assignedSlot)).length := by
      apply two_le_length_filter _ _ i j hi hj hne
      · show (jsTrim ((mergeAndResolve rows).assignments.get ⟨i, hi⟩).teacher ==
            jsTrim ((mergeAndResolve rows).assignments.get ⟨i, hi⟩).teacher &&
            ((mergeAndResolve rows).assignments.get ⟨i, hi⟩).assignedSlot ==
            ((mergeAndResolve rows).assignments.get ⟨i, hi⟩).assignedSlot) = true
        simp
      · show (jsTrim ((mergeAndResolve rows).assignments.get ⟨j, hj⟩).teacher ==
            jsTrim ((mergeAndResolve rows).assignments.get ⟨i, hi⟩).teacher &&
            ((mergeAndResolve rows).assignments.get ⟨j, hj⟩).assignedSlot ==
            ((mergeAndResolve rows).assignments.get ⟨i, hi⟩).assignedSlot) = true
        rw [hteq, hs]
        simp
    obtain ⟨c, hc, hctype, hcslot, hcentries⟩ := detectConflicts_report hsne htne h2
    refine ⟨c, by rw [hconf]; exact hc, hctype, hcslot, ?_, ?_⟩
    · rw [hcentries]
      refine List.mem_filter.mpr ⟨List.get_mem _ _ _, ?_⟩
      show (jsTrim ((mergeAndResolve rows).assignments.get ⟨i, hi⟩).teacher ==
          jsTrim ((mergeAndResolve rows).assignments.get ⟨i, hi⟩).teacher &&
          ((mergeAndResolve rows).assignments.get ⟨i, hi⟩).assignedSlot ==
          ((mergeAndResolve rows).assignments.get ⟨i, hi⟩).assignedSlot) = true
      simp
    · rw [hcentries]
      refine List.mem_filter.mpr ⟨List.get_mem _ _ _, ?_⟩
      show (jsTrim ((mergeAndResolve rows).assignments.get ⟨j, hj⟩).teacher ==
          jsTrim ((mergeAndResolve rows).assignments.get ⟨i, hi⟩).teacher &&
          ((mergeAndResolve rows).assignments.get ⟨j, hj⟩).assignedSlot ==
          ((mergeAndResolve rows).assignments.get ⟨i, hi⟩).assignedSlot) = true
      rw [hteq, hs]
      simp
  · exact Or.inl hs

theorem C1_teacher_conflict_surfaced_witness :
    (0 : Nat) ≠ 1 ∧
    jsTrim ((mergeAndResolve [rowMonP1T, rowMonP1T]).assignments.get
      ⟨0, by decide⟩).teacher ≠ "" ∧
    (((mergeAndResolve [rowMonP1T, rowMonP1T]).assignments.get ⟨0, by decide⟩).assignedSlot
        ≠ ((mergeAndResolve [rowMonP1T, rowMonP1T]).assignments.get ⟨1, by decide⟩).assignedSlot ∨
      ∃ c ∈ (mergeAndResolve [rowMonP1T, rowMonP1T]).conflicts,
        c.type = ConflictType.teacher ∧
        c.slot = ((mergeAndResolve [rowMonP1T, rowMonP1T]).assignments.get
          ⟨0, by decide⟩).assignedSlot ∧
        (mergeAndResolve [rowMonP1T, rowMonP1T]).assignments.get ⟨0, by decide⟩
          ∈ c.conflictingEntries ∧
        (mergeAndResolve [rowMonP1T, rowMonP1T]).assignments.get ⟨1, by decide⟩
          ∈ c.conflictingEntries) :=
  ⟨by decide, by decide,
    C1_teacher_conflict_surfaced [rowMonP1T, rowMonP1T] 0 1 (by decide) (by decide)
      (by decide) (by decide) (by decide)⟩

/-- C3 counterexample: for the single row with day "Xyz" and period "P1" the
produced assignment keeps the non-canonical slot "Xyz-P1" although its
original slot was available (the occupancy index is empty when the first row
is processed), so relocation was never attempted, let alone exhausted — the
claim's "canonical except when relocation exhausted all candidates" fails. -/
theorem C3_counterexample :
    ¬ (∀ a ∈ (mergeAndResolve [xyzRow]).assignments,
        isCanonicalSlot a.assignedSlot = true ∨
          (isSlotAvailable (slotFromRow a.toTimetableRow) (jsTrim a.teacher) (jsTrim a.room)
              (jsTrim a.group) [] = false ∧
            findNextAvailableSlot (slotFromRow a.toTimetableRow) (jsTrim a.teacher)
              (jsTrim a.room) (jsTrim a.group) [] = none ∧
            a.assignedSlot = slotFromRow a.toTimetableRow)) := by
  decide

/-- C3 amended: every produced assignment has a non-empty assignedSlot, and
that slot is canonical or equals the slot computed from the row's original
day and period (the original slot is kept whenever it was either available
or no relocation candidate succeeded; it may be non-canonical). -/
theorem C3_assignedSlot_canonical_or_original (rows : List TimetableRow) :
    ∀ a ∈ (mergeAndResolve rows).assignments,
      a.assignedSlot ≠ "" ∧ (isCanonicalSlot a.assignedSlot = true ∨
        a.assignedSlot = slotFromRow a.toTimetableRow) :=
  mergeAndResolve_assignedSlot_spec rows

theorem C3_assignedSlot_canonical_or_original_witness :
    assignMonP1T.assignedSlot ≠ "" ∧
      (isCanonicalSlot assignMonP1T.assignedSlot = true ∨
        assignMonP1T.assignedSlot = slotFromRow assignMonP1T.toTimetableRow) :=
  C3_assignedSlot_canonical_or_original [rowMonP1T] assignMonP1T (by decide)

/-- C7 : thirty identical rows all requesting Mon-P1 with the same teacher
"T" receive exactly the 30 canonical slots in the four-phase search order
from Mon-P1 (which is the day-major canonical order), each slot once, with
zero conflicts reported. -/
theorem C7_thirty_rows_scenario :
    (mergeAndResolve rows30).assignments.map (fun a => a.assignedSlot) = canonicalSlots ∧
    canonicalSlots = "Mon-P1" :: candidateSlots "Mon-P1" ∧
    canonicalSlots.Nodup ∧
    (mergeAndResolve rows30).conflicts = [] := by
  decide

/-- C9 : mergeAndResolve is a pure function of the input row sequence — two
invocations on equal inputs yield equal results, in particular byte-identical
assignedSlot sequences, conflicts and per-source groupings. -/
theorem C9_deterministic (rows1 rows2 : List TimetableRow) (h : rows1 = rows2) :
    mergeAndResolve rows1 = mergeAndResolve rows2 ∧
    (mergeAndResolve rows1).assignments.map (fun a => a.assignedSlot)
      = (mergeAndResolve rows2).assignments.map (fun a => a.assignedSlot) ∧
    (mergeAndResolve rows1).conflicts = (mergeAndResolve rows2).conflicts ∧
    (mergeAndResolve rows1).separatedTimetables
      = (mergeAndResolve rows2).separatedTimetables := by
  subst h
  exact ⟨rfl, rfl, rfl, rfl⟩

theorem C9_deterministic_witness :
    mergeAndResolve [rowMonP1T] = mergeAndResolve [rowMonP1T] ∧
    (mergeAndResolve [rowMonP1T]).assignments.map (fun a => a.assignedSlot)
      = (mergeAndResolve [rowMonP1T]).assignments.map (fun a => a.assignedSlot) ∧
    (mergeAndResolve [rowMonP1T]).conflicts = (mergeAndResolve [rowMonP1T]).conflicts ∧
    (mergeAndResolve [rowMonP1T]).separatedTimetables
      = (mergeAndResolve [rowMonP1T]).separatedTimetables :=
  C9_deterministic [rowMonP1T] [rowMonP1T] rfl

theorem string_append_ne_empty (s t : String) (h : s.data ≠ []) : s ++ t ≠ "" := by
  intro he
  have hd := congrArg String.data he
  rw [String.data_append] at hd
  rw [show ("" : String).data = [] from rfl] at hd
  exact h (List.append_eq_nil.mp hd).1

theorem dash_key_ne_empty (a b : String) : a ++ "-" ++ b ≠ "" := by
  apply string_append_ne_empty
  rw [String.data_append]
  intro hnil
  have hdash := (List.append_eq_nil.mp hnil).2
  rw [show ("-" : String).data = ['-'] from rfl] at hdash
  cases hdash

theorem normalizeDay_eq_empty_iff (d : String) : normalizeDay d = "" ↔ d = "" := by
  unfold normalizeDay
  cases hm : mapGet dayMappings (jsToLower d) with
  | none => simp
  | some v =>
    simp only [Option.getD_some]
    have hv : v ≠ "" := by
      have hmem := mapGet_eq_some_mem hm
      have hall : ∀ p ∈ dayMappings, p.2 ≠ "" := by decide
      exact hall _ hmem
    constructor
    · intro h
      exact absurd h hv
    · intro h
      subst h
      rw [show jsToLower "" = "" from rfl] at hm
      rw [show mapGet dayMappings "" = (none : Option String) from rfl] at hm
      cases hm

theorem normalizePeriod_eq_empty_iff (p : String) : normalizePeriod p = "" ↔ p = "" := by
  cases hm : firstDigitRun p.data with
  | none =>
    have he : normalizePeriod p = if PERIODS.contains p then p else p := by
      unfold normalizePeriod
      rw [hm]
    rw [he]
    split <;> exact Iff.rfl
  | some ds =>
    have he : normalizePeriod p
        = if 1 ≤ digitsToNat ds ∧ digitsToNat ds ≤ 6 then "P" ++ toString (digitsToNat ds)
          else if PERIODS.contains p then p else p := by
      unfold normalizePeriod
      rw [hm]
    rw [he]
    split
    · constructor
      · intro h
        exact absurd h (string_append_ne_empty "P" _ (by decide))
      · intro h
        subst h
        rw [show ("" : String).data = [] from rfl] at hm
        simp [firstDigitRun] at hm
    · split <;> exact Iff.rfl

theorem slotFromRow_ne_empty_eq {r : TimetableRow} (h : slotFromRow r ≠ "") :
    slotFromRow r = normalizeDay (jsTrim r.day) ++ "-"
      ++ normalizePeriod (jsTrim (replacePeriodWord r.period)) := by
  simp only [slotFromRow] at h ⊢
  by_cases hc : normalizeDay (jsTrim r.day) = "" ∨
      normalizePeriod (jsTrim (replacePeriodWord r.period)) = ""
  · rw [if_pos hc] at h
    exact absurd rfl h
  · rw [if_neg hc]

/-- C2 counterexample: the row with day "Xyz" and period "P1" has a
normalized day that is not in the canonical vocabulary, yet slotFromRow
returns the non-empty key "Xyz-P1" instead of the empty string. -/
theorem C2_counterexample :
    normalizeDay (jsTrim xyzRow.day) ∉ DAYS ∧
    slotFromRow xyzRow = "Xyz-P1" ∧ slotFromRow xyzRow ≠ "" := by
  decide

/-- C2 amended: slotFromRow returns the empty string exactly when the
trimmed day is empty or the period (after the leading "period"-token
replacement and trimming) is empty; otherwise it returns the key
"<normalizeDay(day)>-<normalizePeriod(period)>", whose components may be
non-canonical pass-through values rather than members of the canonical
vocabularies. -/
theorem C2_slotFromRow_empty_iff (r : TimetableRow) :
    (slotFromRow r = "" ↔ jsTrim r.day = "" ∨ jsTrim (replacePeriodWord r.period) = "") ∧
    (slotFromRow r ≠ "" → slotFromRow r
      = normalizeDay (jsTrim r.day) ++ "-"
        ++ normalizePeriod (jsTrim (replacePeriodWord r.period))) := by
  constructor
  · simp only [slotFromRow]
    by_cases hc : normalizeDay (jsTrim r.day) = "" ∨
        normalizePeriod (jsTrim (replacePeriodWord r.period)) = ""
    · rw [if_pos hc]
      rw [normalizeDay_eq_empty_iff, normalizePeriod_eq_empty_iff] at hc
      exact ⟨fun _ => hc, fun _ => rfl⟩
    · rw [if_neg hc]
      rw [normalizeDay_eq_empty_iff, normalizePeriod_eq_empty_iff] at hc
      exact ⟨fun h => absurd h (dash_key_ne_empty _ _), fun h => absurd h hc⟩
  · exact fun h => slotFromRow_ne_empty_eq h

theorem C2_slotFromRow_empty_iff_witness :
    (slotFromRow xyzRow = "" ↔ jsTrim xyzRow.day = ""
      ∨ jsTrim (replacePeriodWord xyzRow.period) = "") ∧
    (slotFromRow xyzRow ≠ "" → slotFromRow xyzRow
      = normalizeDay (jsTrim xyzRow.day) ++ "-"
        ++ normalizePeriod (jsTrim (replacePeriodWord xyzRow.period))) :=
  C2_slotFromRow_empty_iff xyzRow

theorem slotFromRow_contains_dash {r : TimetableRow} (h : slotFromRow r ≠ "") :
    (slotFromRow r).data.contains '-' = true := by
  have heq := slotFromRow_ne_empty_eq h
  rw [heq, String.data_append, String.data_append]
  have hmem : '-' ∈ (normalizeDay (jsTrim r.day)).data
      ++ ("-" : String).data
      ++ (normalizePeriod (jsTrim (replacePeriodWord r.period))).data := by
    apply List.mem_append_left
    apply List.mem_append_right
    rw [show ("-" : String).data = ['-'] from rfl]
    exact List.mem_singleton.mpr rfl
  exact List.elem_iff.mpr hmem

theorem isValidRow_eq (row : TimetableRow) :
    isValidRow row
      = (decide (slotFromRow row ≠ "") &&
          (decide (row.teacher ≠ "") || decide (row.room ≠ "") || decide (row.group ≠ ""))) := by
  unfold isValidRow
  by_cases h : slotFromRow row = ""
  · simp [h]
  · have hdash := slotFromRow_contains_dash h
    simp [h, hdash]
    intro hres
    exact List.elem_iff.mp hdash

/-- C4 counterexample: the row with day Mon, period P1 and teacher " " has
no non-empty-after-trim resource identity, so by the claim it should be
dropped and appear in no output; the code's gate does not trim, the row
passes, and it appears in the assignments. -/
theorem C4_counterexample :
    slotFromRow spaceTeacherRow ≠ "" ∧
    jsTrim spaceTeacherRow.teacher = "" ∧ jsTrim spaceTeacherRow.room = "" ∧
    jsTrim spaceTeacherRow.group = "" ∧
    (mergeAndResolve [spaceTeacherRow]).assignments ≠ [] := by
  decide

/-- C4 amended: a row participates in resolution (its fields appear as the
row part of an assignment, in input order) exactly when slotFromRow is
non-empty and at least one of teacher, room, group is a non-empty string
without trimming (whitespace-only identities pass the gate); a row failing
this gate appears in no output — not among the assignments, nor inside any
conflict's entries, nor in any per-source grouping. -/
theorem C4_validity_gate (rows : List TimetableRow) :
    ((mergeAndResolve rows).assignments.map (fun a => a.toTimetableRow)
        = rows.filter isValidRow) ∧
    (∀ row : TimetableRow, isValidRow row
        = (decide (slotFromRow row ≠ "") &&
            (decide (row.teacher ≠ "") || decide (row.room ≠ "") || decide (row.group ≠ "")))) ∧
    (∀ a : Assignment, isValidRow a.toTimetableRow = false →
      a ∉ (mergeAndResolve rows).assignments ∧
      (∀ c ∈ (mergeAndResolve rows).conflicts, a ∉ c.conflictingEntries) ∧
      (∀ pe ∈ (mergeAndResolve rows).separatedTimetables, a ∉ pe.2)) := by
  refine ⟨mergeAndResolve_toRows rows, isValidRow_eq, ?_⟩
  intro a hbad
  have hnotmem : a ∉ (mergeAndResolve rows).assignments := by
    intro hmem
    have hrow : a.toTimetableRow ∈ rows.filter isValidRow := by
      rw [← mergeAndResolve_toRows rows]
      exact List.mem_map_of_mem _ hmem
    have := (List.mem_filter.mp hrow).2
    rw [hbad] at this
    cases this
  refine ⟨hnotmem, ?_, ?_⟩
  · intro c hc hmem
    exact hnotmem (detectConflicts_entries_subset hc a hmem)
  · intro pe hpe hmem
    exact hnotmem (mergeAndResolve_sep_subset rows pe hpe a hmem)

theorem C4_validity_gate_witness :
    ((mergeAndResolve [spaceTeacherRow]).assignments.map (fun a => a.toTimetableRow)
        = [spaceTeacherRow].filter isValidRow) ∧
    (({ day := "", period := "", assignedSlot := "" } : Assignment)
        ∉ (mergeAndResolve [spaceTeacherRow]).assignments) :=
  ⟨(C4_validity_gate [spaceTeacherRow]).1,
    ((C4_validity_gate [spaceTeacherRow]).2.2
      { day := "", period := "", assignedSlot := "" } (by decide)).1⟩

/-- C5 : from any canonical start slot, the candidate sequence of
findNextAvailableSlot is a permutation of the 29 other canonical slots
(total coverage, no duplicates); the function returns the first candidate
satisfying isSlotAvailable and returns none only when every candidate
failed; from Mon-P1 the first candidate is Mon-P2. -/
theorem C5_search_coverage :
    (∀ s ∈ canonicalSlots,
      (candidateSlots s).Perm (canonicalSlots.erase s) ∧
      (∀ (t r g : String) (occ : OccupiedSlots),
        findNextAvailableSlot s t r g occ
          = (candidateSlots s).find? (fun slot => isSlotAvailable slot t r g occ)) ∧
      (∀ (t r g : String) (occ : OccupiedSlots),
        findNextAvailableSlot s t r g occ = none →
        ∀ c ∈ candidateSlots s, isSlotAvailable c t r g occ = false)) ∧
    (candidateSlots "Mon-P1").head? = some "Mon-P2" := by
  constructor
  · intro s hs
    fin_cases hs <;>
      exact ⟨by decide, fun t r g occ => rfl,
        fun t r g occ h c hc => Bool.eq_false_iff.mpr (List.find?_eq_none.mp h c hc)⟩
  · decide

theorem C5_search_coverage_witness :
    ("Mon-P1" ∈ canonicalSlots) ∧
    (candidateSlots "Mon-P1").Perm (canonicalSlots.erase "Mon-P1") ∧
    findNextAvailableSlot "Mon-P1" "T" "" "" []
      = (candidateSlots "Mon-P1").find? (fun slot => isSlotAvailable slot "T" "" "" []) :=
  ⟨by decide, (C5_search_coverage.1 "Mon-P1" (by decide)).1,
    (C5_search_coverage.1 "Mon-P1" (by decide)).2.1 "T" "" "" []⟩

/-- C6 counterexample: the phase-4 portion of the candidate sequence from
Wed-P1 is not in Monday-first day order; behaviorally, with phases 1-3
fully blocked for teacher "T" and both Mon-P1 and Tue-P1 free, the search
returns Tue-P1 — under the claimed Mon-first order it would have had to
test and return Mon-P1, which is available. -/
theorem C6_counterexample :
    (candidateSlots "Wed-P1").drop 17 ≠ mondayFirstEarlierDays 2 ∧
    findNextAvailableSlot "Wed-P1" "T" "" "" occWed = some "Tue-P1" ∧
    isSlotAvailable "Mon-P1" "T" "" "" occWed = true := by
  decide

/-- C6 amended: when the first three phases are exhausted, the days strictly
before the original day are tried in reverse day order — the day immediately
before the original first, descending to Mon — with each day's periods in
increasing order. -/
theorem C6_phase4_reverse_day_order :
    ∀ dayIndex < 5, ∀ periodIndex < 6,
      (candidateSlots (slotKey dayIndex periodIndex)).drop (29 - 6 * dayIndex)
        = (((DAYS.take dayIndex).reverse).map
            (fun d => PERIODS.map (fun p => d ++ "-" ++ p))).flatten := by
  decide

theorem C6_phase4_reverse_day_order_witness :
    (candidateSlots (slotKey 2 0)).drop (29 - 6 * 2)
      = (((DAYS.take 2).reverse).map
          (fun d => PERIODS.map (fun p => d ++ "-" ++ p))).flatten :=
  C6_phase4_reverse_day_order 2 (by decide) 0 (by decide)

/-- C8 : every processed row's trimmed non-empty resource identities are
committed to the occupancy index at the final assigned slot (the step
function always commits, also when the original conflicting slot is kept);
the commit is idempotent; and a committed (slot, resource) pair survives
every later step of a run. -/
theorem C8_commit_properties :
    (∀ (st : ResolveState) (row : TimetableRow) (a : Assignment),
      (resolveStep st row).assignments = st.assignments ++ [a] →
      (jsTrim a.teacher ≠ "" →
        jsTrim a.teacher ∈ teachersOf (resolveStep st row).occupiedSlots a.assignedSlot) ∧
      (jsTrim a.room ≠ "" →
        jsTrim a.room ∈ roomsOf (resolveStep st row).occupiedSlots a.assignedSlot) ∧
      (jsTrim a.group ≠ "" →
        jsTrim a.group ∈ groupsOf (resolveStep st row).occupiedSlots a.assignedSlot)) ∧
    (∀ (slot t r g : String) (occ : OccupiedSlots),
      addToSlot slot t r g (addToSlot slot t r g occ) = addToSlot slot t r g occ) ∧
    (∀ (l : List TimetableRow) (st : ResolveState) (slot x : String),
      (x ∈ teachersOf st.occupiedSlots slot →
        x ∈ teachersOf (l.foldl resolveStep st).occupiedSlots slot) ∧
      (x ∈ roomsOf st.occupiedSlots slot →
        x ∈ roomsOf (l.foldl resolveStep st).occupiedSlots slot) ∧
      (x ∈ groupsOf st.occupiedSlots slot →
        x ∈ groupsOf (l.foldl resolveStep st).occupiedSlots slot)) := by
  refine ⟨?_, addToSlot_idem, ?_⟩
  · intro st row a h
    rw [resolveStep_assignments] at h
    have ha : a = { row with assignedSlot := resolveAssignedSlot st.occupiedSlots row } := by
      simpa using (List.append_cancel_left h).symm
    subst ha
    refine ⟨?_, ?_, ?_⟩
    · intro hne
      show jsTrim row.teacher ∈ teachersOf (resolveStep st row).occupiedSlots
        (resolveAssignedSlot st.occupiedSlots row)
      rw [resolveStep_occupied, teachersOf_addToSlot_self, jsTrim_idem]
      rw [if_pos hne]
      exact setAdd_mem_self _ _
    · intro hne
      show jsTrim row.room ∈ roomsOf (resolveStep st row).occupiedSlots
        (resolveAssignedSlot st.occupiedSlots row)
      rw [resolveStep_occupied, roomsOf_addToSlot_self, jsTrim_idem]
      rw [if_pos hne]
      exact setAdd_mem_self _ _
    · intro hne
      show jsTrim row.group ∈ groupsOf (resolveStep st row).occupiedSlots
        (resolveAssignedSlot st.occupiedSlots row)
      rw [resolveStep_occupied, groupsOf_addToSlot_self, jsTrim_idem]
      rw [if_pos hne]
      exact setAdd_mem_self _ _
  · intro l st slot x
    exact ⟨teachersOf_foldl_mono l st slot x, roomsOf_foldl_mono l st slot x,
      groupsOf_foldl_mono l st slot x⟩

theorem C8_commit_properties_witness :
    (jsTrim assignMonP1T.teacher ∈ teachersOf
      (resolveStep { assignments := [], separatedTimetables := [], occupiedSlots := [] }
        rowMonP1T).occupiedSlots assignMonP1T.assignedSlot) ∧
    addToSlot "Mon-P1" "T" "" "" (addToSlot "Mon-P1" "T" "" "" [])
      = addToSlot "Mon-P1" "T" "" "" [] ∧
    "T" ∈ teachersOf (([rowMonP1T]).foldl resolveStep
      { assignments := [], separatedTimetables := [],
        occupiedSlots := addToSlot "Mon-P1" "T" "" "" [] }).occupiedSlots "Mon-P1" :=
  ⟨(C8_commit_properties.1
      { assignments := [], separatedTimetables := [], occupiedSlots := [] }
      rowMonP1T assignMonP1T (by decide)).1 (by decide),
   C8_commit_properties.2.1 "Mon-P1" "T" "" "" [],
   (C8_commit_properties.2.2 [rowMonP1T]
      { assignments := [], separatedTimetables := [],
        occupiedSlots := addToSlot "Mon-P1" "T" "" "" [] } "Mon-P1" "T").1 (by decide)⟩

theorem candidateSlots_guard_nil {slot : String} (h : slotGuardFails slot) :
    candidateSlots slot = [] := by
  rcases h with h | h | h
  · subst h
    decide
  · simp only [candidateSlots]
    rw [indexOfStr_eq_none h]
  · simp only [candidateSlots]
    rw [indexOfStr_eq_none h]
    cases indexOfStr DAYS (((splitOnChar '-' slot.data).map String.mk).headD "") <;> rfl

/-- C10 counterexample: the duplicated row with day "Mon-P1-huh" has the
non-canonical original slot "Mon-P1-huh-P2", whose first two dash-separated
components are the canonical "Mon" and "P1"; on the second copy the search
proceeds and relocates it to "Mon-P2", so a row with a non-canonical
original slot is not always kept at its original slot. -/
theorem C10_counterexample :
    isCanonicalSlot (slotFromRow garbageRow) = false ∧
    slotFromRow garbageRow = "Mon-P1-huh-P2" ∧
    (mergeAndResolve [garbageRow, garbageRow]).assignments.map (fun a => a.assignedSlot)
      = ["Mon-P1-huh-P2", "Mon-P2"] := by
  decide

/-- C10 amended: when the slot string is empty, or its first dash-separated
component is not a canonical day, or its second is not a canonical period,
findNextAvailableSlot returns none and its candidate sequence is empty (no
candidate is tested); consequently a row whose original slot fails this
split-based guard keeps its original slot in mergeAndResolve.  (A
non-canonical original slot that passes the guard can still be relocated.) -/
theorem C10_guard_blocks_relocation :
    (∀ (slot t r g : String) (occ : OccupiedSlots), slotGuardFails slot →
      findNextAvailableSlot slot t r g occ = none ∧ candidateSlots slot = []) ∧
    (∀ rows : List TimetableRow, ∀ a ∈ (mergeAndResolve rows).assignments,
      slotGuardFails (slotFromRow a.toTimetableRow) →
      a.assignedSlot = slotFromRow a.toTimetableRow) := by
  refine ⟨?_, mergeAndResolve_guard_keeps_original⟩
  intro slot t r g occ h
  exact ⟨findNextAvailableSlot_guard_none h, candidateSlots_guard_nil h⟩

theorem C10_guard_blocks_relocation_witness :
    slotGuardFails "Xyz-P1" ∧
    findNextAvailableSlot "Xyz-P1" "T" "" "" [] = none ∧
    candidateSlots "Xyz-P1" = [] ∧
    assignXyz.assignedSlot = slotFromRow assignXyz.toTimetableRow :=
  ⟨by decide,
   (C10_guard_blocks_relocation.1 "Xyz-P1" "T" "" "" [] (by decide)).1,
   (C10_guard_blocks_relocation.1 "Xyz-P1" "T" "" "" [] (by decide)).2,
   C10_guard_blocks_relocation.2 [xyzRow] assignXyz (by decide) (by decide)⟩
